import Mathlib

/-!
Shallow embedding of the weak-reference demo:
`Source/SelfDestructingObject.h` and `Source/MainComponent.{h,cpp}`.

The repository code under `src/Source` uses the JUCE library macros
`JUCE_DECLARE_WEAK_REFERENCEABLE` and the classes `WeakReference`,
`Timer::callAfterDelay` and `Random`.  The JUCE library itself is an
external collaborator of this repository, so its mechanism is embedded
here from its documented contract, exactly as the repository relies on
it:

* each weak-referenceable object owns one shared liveness cell, created
  with the object and invalidated by the destructor of the object before
  its memory is released;
* a `WeakReference` holds either nothing (bound to `nullptr`) or a
  reference to the liveness cell of one instance; its boolean test and
  `get ()` consult only that cell;
* `Random::getSystemRandom ().nextInt (maxValue)` returns an integer in
  the half-open interval `[0, maxValue)` (upper bound exclusive);
* `Timer::callAfterDelay (delay, fn)` runs `fn` exactly once, later.

Instances are named by ids drawn from a fresh counter: a destroyed id is
never handed out again, which models that a liveness cell is never
re-bound to a new object (a recycled address in C++ gets a fresh cell).
Timing of the scheduled callbacks is abstracted by quantifying over all
orders in which pending callbacks may fire.
-/

namespace WeakDemo

/-- Identity of an `Observable Instance` (a stable id standing for the
heap address of one `SelfDestructingObject`). -/
abbrev InstanceId := Nat

/-- A `juce::WeakReference<SelfDestructingObject>`: either bound to
`nullptr`, or referencing the liveness cell of the instance `i`. -/
inductive WeakRef where
  | null : WeakRef
  | toCell (i : InstanceId) : WeakRef
deriving DecidableEq, Repr

/-- The demo state: the fresh-id counter, the set of ids ever
constructed, the set of ids whose liveness cell is still valid, the set
of ids whose one-shot destruction callback is scheduled but has not yet
run, and the `Component` name of each id (set by `setName`). -/
structure State where
  nextId : Nat
  created : List InstanceId
  live : List InstanceId
  pending : List InstanceId
  names : List (InstanceId × String)
deriving DecidableEq, Repr

/-- The state before any object has been constructed. -/
def State.initial : State := ⟨0, [], [], [], []⟩

/-- Binding a `WeakReference` to a pointer: `nullptr` gives the null
handle, a valid pointer gives a handle on the liveness cell of the
pointee (`WeakReference (obj)` in the sources). -/
def bindWeak : Option InstanceId → WeakRef
  | none => WeakRef.null
  | some i => WeakRef.toCell i

/-- The boolean test `if (weak)`: true iff the referenced liveness cell
exists and has not been invalidated. -/
def isAlive (s : State) : WeakRef → Bool
  | WeakRef.null => false
  | WeakRef.toCell i => decide (i ∈ s.live)

/-- `weak.get ()`: the pointer to the instance while its liveness cell
is valid, `nullptr` (here `none`) otherwise.  Total: absence is an
ordinary return value, never a fault. -/
def resolve (s : State) : WeakRef → Option InstanceId
  | WeakRef.null => none
  | WeakRef.toCell i => if i ∈ s.live then some i else none

/-- Copying a `WeakReference`: the copy references the same liveness
cell (or is null when the original is). -/
def copyWeak : WeakRef → WeakRef
  | WeakRef.null => WeakRef.null
  | WeakRef.toCell i => WeakRef.toCell i

/-- The liveness cell a handle references, if any. -/
def cellOf : WeakRef → Option InstanceId
  | WeakRef.null => none
  | WeakRef.toCell i => some i

/-- The configured maximum destruction delay: the literal `3000` passed
to `Random::getSystemRandom ().nextInt` in the `SelfDestructingObject`
constructor (`Source/SelfDestructingObject.h`, line 10). -/
def maxDestructionDelay : Nat := 3000

/-- `juce::Random::nextInt (maxValue)`: a value between 0 (inclusive)
and `maxValue` (exclusive), the generator state abstracted as `seed`. -/
def nextInt (seed maxValue : Nat) : Nat := seed % maxValue

/-- The delay the constructor passes to `Timer::callAfterDelay`:
`Random::getSystemRandom ().nextInt (3000)`. -/
def scheduledDelay (seed : Nat) : Nat := nextInt seed maxDestructionDelay

/-- The `SelfDestructingObject` constructor: allocate a fresh instance
together with its liveness cell, and schedule its one-shot
self-destruction callback.  Returns the new state and the pointer
returned by `new`. -/
def constructObj (s : State) : State × InstanceId :=
  (⟨s.nextId + 1, s.nextId :: s.created, s.nextId :: s.live,
    s.nextId :: s.pending, s.names⟩, s.nextId)

/-- `juce::Component::setName` as used by `MainComponent`. -/
def setName (s : State) (i : InstanceId) (nm : String) : State :=
  { s with names := (i, nm) :: s.names }

/-- `juce::Component::getName`.  Reading it through a dangling pointer
is undefined behaviour in C++; the model returns the stale bytes. -/
def getName (s : State) (i : InstanceId) : String :=
  match s.names.lookup i with
  | some nm => nm
  | none => ""

/-- The destruction protocol: `delete weak.get ()` invalidates the
liveness cell of `i` (the member declared by
`JUCE_DECLARE_WEAK_REFERENCEABLE` clears it in the destructor) and then
releases the memory of the instance. -/
def destroy (s : State) (i : InstanceId) : State :=
  { s with live := s.live.erase i }

/-- What one run of the scheduled lambda produces: the successor state,
whether `delete` was executed, and whether the `DBG ("Deleted object")`
line was reached. -/
structure CallbackResult where
  state : State
  didDelete : Bool
  loggedDeleted : Bool
deriving DecidableEq, Repr

/-- The lambda scheduled by the `SelfDestructingObject` constructor
(`Source/SelfDestructingObject.h`, lines 10-15), with
`weak = WeakReference (this)` captured at construction:

  if (weak) delete weak.get ();
  DBG ("Deleted object");

The boolean test `if (weak)` succeeds exactly when `weak.get ()` is
non-null, so the guarded delete is embedded as a match on `resolve`. -/
def selfDestructCallback (s : State) (i : InstanceId) : CallbackResult :=
  let weak := bindWeak (some i)
  match resolve s weak with
  | some p => { state := destroy s p, didDelete := true, loggedDeleted := true }
  | none => { state := s, didDelete := false, loggedDeleted := true }

/-- Result of a button click handler: which branch ran, and what text
the `DBG` line printed. -/
inductive ClickResult where
  | nameBranch (text : String) : ClickResult
  | deletedBranch : ClickResult
deriving DecidableEq, Repr

/-- `crashButton.onClick` (`Source/MainComponent.cpp`, lines 26-31): the
captured raw pointer `obj` is tested against null, and dereferenced when
non-null:

  if (obj) DBG ("Name: " << obj->getName ());
  else DBG ("Object has been deleted");  -/
def crashClick (s : State) (obj : Option InstanceId) : ClickResult :=
  match obj with
  | some i => ClickResult.nameBranch (getName s i)
  | none => ClickResult.deletedBranch

/-- `checkButton.onClick` (`Source/MainComponent.cpp`, lines 34-39): the
captured `WeakReference` is tested, and dereferenced when alive:

  if (weak) DBG ("Name: " << weak->getName ());
  else DBG ("Object has been deleted");  -/
def checkClick (s : State) (w : WeakRef) : ClickResult :=
  match resolve s w with
  | some i => ClickResult.nameBranch (getName s i)
  | none => ClickResult.deletedBranch

/-- What the `MainComponent` constructor builds
(`Source/MainComponent.cpp`, lines 20-39): the state after
`new SelfDestructingObject` and `setName`, the raw pointer captured by
`crashButton.onClick`, and the weak reference captured by
`checkButton.onClick`. -/
structure MainInit where
  state : State
  rawPtr : Option InstanceId
  weak : WeakRef
deriving DecidableEq, Repr

/-- The core of `MainComponent::MainComponent`. -/
def mainComponentInit (s : State) : MainInit :=
  let c := constructObj s
  { state := setName c.1 c.2 "Self Destructing Object",
    rawPtr := some c.2,
    weak := bindWeak (some c.2) }

/-- The events that can change the demo state.  `construct` is the
creation of a `SelfDestructingObject`; `fire i` is the scheduler running
the one-shot callback of instance `i`; button clicks read but never
write the state (the `deleteButton` of `MainComponent` has no `onClick`
handler, so no event deletes an instance from outside). -/
inductive Event where
  | construct : Event
  | fire (i : InstanceId) : Event
  | clickCheck (w : WeakRef) : Event
  | clickCrash (p : Option InstanceId) : Event
deriving DecidableEq, Repr

/-- One step of the demo.  A `fire i` runs the callback of `i` only if
that callback is still pending, and unschedules it (one-shot). -/
def step (s : State) : Event → State
  | Event.construct => (constructObj s).1
  | Event.fire i =>
      if i ∈ s.pending then
        { (selfDestructCallback s i).state with pending := s.pending.erase i }
      else s
  | Event.clickCheck _ => s
  | Event.clickCrash _ => s

/-- Running a list of events. -/
def run (s : State) : List Event → State
  | [] => s
  | e :: es => run (step s e) es

/-- Well-formedness of a state: every created id is below the fresh
counter, live ids were created, pending callbacks belong to live
instances (the only delete path is the callback itself), and no
callback is scheduled twice. -/
def WF (s : State) : Prop :=
  (∀ i ∈ s.created, i < s.nextId) ∧
  (∀ i ∈ s.live, i ∈ s.created) ∧
  (∀ i ∈ s.pending, i ∈ s.live) ∧
  s.pending.Nodup

/-- `destroysAt s e i` holds when event `e`, taken in state `s`,
executes the `delete` of instance `i` (equivalently: invalidates its
liveness cell). -/
def destroysAt (s : State) (e : Event) (i : InstanceId) : Bool :=
  match e with
  | Event.fire j => decide (j = i) && decide (j ∈ s.pending) && isAlive s (WeakRef.toCell j)
  | _ => false

/-- Number of times instance `i` is destroyed along a trace. -/
def destroyCount (s : State) (evs : List Event) (i : InstanceId) : Nat :=
  match evs with
  | [] => 0
  | e :: es => (if destroysAt s e i then 1 else 0) + destroyCount (step s e) es i

/-- `logsAt s e i` holds when event `e`, taken in state `s`, reaches the
`DBG ("Deleted object")` line of the callback of instance `i` (the line
sits outside the `if (weak)` guard, so it is reached whenever the
callback runs at all). -/
def logsAt (s : State) (e : Event) (i : InstanceId) : Bool :=
  match e with
  | Event.fire j => decide (j = i) && decide (j ∈ s.pending)
  | _ => false

/-- Number of `Deleted object` diagnostics attributable to instance `i`
along a trace. -/
def logCount (s : State) (evs : List Event) (i : InstanceId) : Nat :=
  match evs with
  | [] => 0
  | e :: es => (if logsAt s e i then 1 else 0) + logCount (step s e) es i

lemma selfDestructCallback_alive (s : State) (i : InstanceId) (h : i ∈ s.live) :
    selfDestructCallback s i = ⟨destroy s i, true, true⟩ := by
  simp [selfDestructCallback, bindWeak, resolve, h]

lemma selfDestructCallback_dead (s : State) (i : InstanceId) (h : i ∉ s.live) :
    selfDestructCallback s i = ⟨s, false, true⟩ := by
  simp [selfDestructCallback, bindWeak, resolve, h]

lemma WF_step (s : State) (e : Event) (hWF : WF s) : WF (step s e) := by
  obtain ⟨h1, h2, h3, h4⟩ := hWF
  cases e with
  | construct =>
      refine ⟨?_, ?_, ?_, ?_⟩
      · intro i hi
        rcases List.mem_cons.mp hi with h | h
        · simp [step, constructObj, h]
        · exact Nat.lt_succ_of_lt (h1 i h)
      · intro i hi
        rcases List.mem_cons.mp hi with h | h
        · simp [step, constructObj, h]
        · exact List.mem_cons_of_mem _ (h2 i h)
      · intro i hi
        rcases List.mem_cons.mp hi with h | h
        · simp [step, constructObj, h]
        · exact List.mem_cons_of_mem _ (h3 i h)
      · refine List.nodup_cons.mpr ⟨?_, h4⟩
        intro hmem
        exact absurd (h1 _ (h2 _ (h3 _ hmem))) (Nat.lt_irrefl _)
  | fire j =>
      by_cases hp : j ∈ s.pending
      · have hl : j ∈ s.live := h3 j hp
        simp only [step, if_pos hp, selfDestructCallback_alive s j hl, destroy]
        refine ⟨h1, ?_, ?_, List.Nodup.erase _ h4⟩
        · intro i hi
          exact h2 i (List.mem_of_mem_erase hi)
        · intro i hi
          rcases (List.Nodup.mem_erase_iff h4).mp hi with ⟨hne, hip⟩
          exact (List.mem_erase_of_ne hne).mpr (h3 i hip)
      · simpa [step, hp] using ⟨h1, h2, h3, h4⟩
  | clickCheck w => exact ⟨h1, h2, h3, h4⟩
  | clickCrash p => exact ⟨h1, h2, h3, h4⟩

lemma WF_run (s : State) (evs : List Event) (hWF : WF s) : WF (run s evs) := by
  induction evs generalizing s with
  | nil => exact hWF
  | cons e es ih => exact ih _ (WF_step s e hWF)

lemma WF_initial : WF State.initial := by
  refine ⟨?_, ?_, ?_, ?_⟩ <;> simp [State.initial]

lemma created_step (s : State) (e : Event) (i : InstanceId) (h : i ∈ s.created) :
    i ∈ (step s e).created := by
  cases e with
  | construct => exact List.mem_cons_of_mem _ h
  | fire j =>
      by_cases hp : j ∈ s.pending
      · by_cases hl : j ∈ s.live
        · simpa [step, hp, selfDestructCallback_alive s j hl, destroy] using h
        · simpa [step, hp, selfDestructCallback_dead s j hl] using h
      · simpa [step, hp] using h
  | clickCheck w => exact h
  | clickCrash p => exact h

lemma dead_step (s : State) (e : Event) (i : InstanceId) (hWF : WF s)
    (hc : i ∈ s.created) (hd : i ∉ s.live) : i ∉ (step s e).live := by
  obtain ⟨h1, h2, h3, h4⟩ := hWF
  cases e with
  | construct =>
      intro hmem
      rcases List.mem_cons.mp hmem with h | h
      · exact absurd (h ▸ h1 i hc) (Nat.lt_irrefl _)
      · exact hd h
  | fire j =>
      by_cases hp : j ∈ s.pending
      · by_cases hl : j ∈ s.live
        · simp only [step, if_pos hp, selfDestructCallback_alive s j hl, destroy]
          intro hmem
          exact hd (List.mem_of_mem_erase hmem)
        · simpa [step, hp, selfDestructCallback_dead s j hl] using hd
      · simpa [step, hp] using hd
  | clickCheck w => exact hd
  | clickCrash p => exact hd

lemma dead_run (s : State) (evs : List Event) (i : InstanceId) (hWF : WF s)
    (hc : i ∈ s.created) (hd : i ∉ s.live) : i ∉ (run s evs).live := by
  induction evs generalizing s with
  | nil => exact hd
  | cons e es ih =>
      exact ih _ (WF_step s e hWF) (created_step s e i hc) (dead_step s e i hWF hc hd)

lemma not_pending_step (s : State) (e : Event) (i : InstanceId) (hWF : WF s)
    (hc : i ∈ s.created) (hp : i ∉ s.pending) : i ∉ (step s e).pending := by
  obtain ⟨h1, h2, h3, h4⟩ := hWF
  cases e with
  | construct =>
      intro hmem
      rcases List.mem_cons.mp hmem with h | h
      · exact absurd (h ▸ h1 i hc) (Nat.lt_irrefl _)
      · exact hp h
  | fire j =>
      by_cases hjp : j ∈ s.pending
      · by_cases hl : j ∈ s.live
        · simp only [step, if_pos hjp, selfDestructCallback_alive s j hl, destroy]
          intro hmem
          exact hp (List.mem_of_mem_erase hmem)
        · simp only [step, if_pos hjp, selfDestructCallback_dead s j hl]
          intro hmem
          exact hp (List.mem_of_mem_erase hmem)
      · simpa [step, hjp] using hp
  | clickCheck w => exact hp
  | clickCrash p => exact hp

lemma count_zero (evs : List Event) (s : State) (i : InstanceId) (hWF : WF s)
    (hc : i ∈ s.created) (hp : i ∉ s.pending) :
    destroyCount s evs i = 0 ∧ logCount s evs i = 0 := by
  induction evs generalizing s with
  | nil => exact ⟨rfl, rfl⟩
  | cons e es ih =>
      have hdz : destroysAt s e i = false := by
        cases e with
        | fire j =>
            by_cases hji : j = i
            · subst hji
              simp [destroysAt, hp]
            · simp [destroysAt, hji]
        | construct => rfl
        | clickCheck w => rfl
        | clickCrash p => rfl
      have hlz : logsAt s e i = false := by
        cases e with
        | fire j =>
            by_cases hji : j = i
            · subst hji
              simp [logsAt, hp]
            · simp [logsAt, hji]
        | construct => rfl
        | clickCheck w => rfl
        | clickCrash p => rfl
      have tail := ih _ (WF_step s e hWF) (created_step s e i hc)
        (not_pending_step s e i hWF hc hp)
      exact ⟨by simp [destroyCount, hdz, tail.1], by simp [logCount, hlz, tail.2]⟩

lemma after_fire_unscheduled (s : State) (i : InstanceId) (hWF : WF s)
    (hp : i ∈ s.pending) :
    i ∈ (step s (Event.fire i)).created ∧ i ∉ (step s (Event.fire i)).pending := by
  obtain ⟨h1, h2, h3, h4⟩ := hWF
  have hl : i ∈ s.live := h3 i hp
  constructor
  · exact created_step s (Event.fire i) i (h2 i hl)
  · simp only [step, if_pos hp, selfDestructCallback_alive s i hl, destroy]
    intro hmem
    exact absurd ((List.Nodup.mem_erase_iff h4).mp hmem).1 (by simp)

lemma count_le_one (evs : List Event) (s : State) (i : InstanceId) (hWF : WF s) :
    destroyCount s evs i ≤ 1 ∧ logCount s evs i ≤ 1 := by
  induction evs generalizing s with
  | nil => exact ⟨Nat.zero_le _, Nat.zero_le _⟩
  | cons e es ih =>
      have hWF' := WF_step s e hWF
      cases e with
      | construct =>
          have tail := ih _ hWF'
          exact ⟨by simpa [destroyCount, destroysAt] using tail.1,
                 by simpa [logCount, logsAt] using tail.2⟩
      | clickCheck w =>
          have tail := ih _ hWF'
          exact ⟨by simpa [destroyCount, destroysAt] using tail.1,
                 by simpa [logCount, logsAt] using tail.2⟩
      | clickCrash p =>
          have tail := ih _ hWF'
          exact ⟨by simpa [destroyCount, destroysAt] using tail.1,
                 by simpa [logCount, logsAt] using tail.2⟩
      | fire j =>
          by_cases hji : j = i
          · subst hji
            by_cases hp : j ∈ s.pending
            · have hafter := after_fire_unscheduled s j hWF hp
              have tail := count_zero es _ j hWF' hafter.1 hafter.2
              constructor
              · simp only [destroyCount, tail.1, Nat.add_zero]
                split <;> simp
              · simp [logCount, logsAt, hp, tail.2]
            · have tail := ih _ hWF'
              exact ⟨by simpa [destroyCount, destroysAt, hp] using tail.1,
                     by simpa [logCount, logsAt, hp] using tail.2⟩
          · have tail := ih _ hWF'
            exact ⟨by simpa [destroyCount, destroysAt, hji] using tail.1,
                   by simpa [logCount, logsAt, hji] using tail.2⟩

lemma pending_step_of_ne (s : State) (e : Event) (i : InstanceId)
    (hne : e ≠ Event.fire i) (hp : i ∈ s.pending) : i ∈ (step s e).pending := by
  cases e with
  | construct => exact List.mem_cons_of_mem _ hp
  | fire j =>
      have hji : j ≠ i := fun h => hne (by rw [h])
      by_cases hjp : j ∈ s.pending
      · by_cases hl : j ∈ s.live
        · simp only [step, if_pos hjp, selfDestructCallback_alive s j hl, destroy]
          exact (List.mem_erase_of_ne (Ne.symm hji)).mpr hp
        · simp only [step, if_pos hjp, selfDestructCallback_dead s j hl]
          exact (List.mem_erase_of_ne (Ne.symm hji)).mpr hp
      · simpa [step, hjp] using hp
  | clickCheck w => exact hp
  | clickCrash p => exact hp

lemma live_step_of_ne (s : State) (e : Event) (i : InstanceId)
    (hne : e ≠ Event.fire i) (hl : i ∈ s.live) : i ∈ (step s e).live := by
  cases e with
  | construct => exact List.mem_cons_of_mem _ hl
  | fire j =>
      have hji : j ≠ i := fun h => hne (by rw [h])
      by_cases hjp : j ∈ s.pending
      · by_cases hjl : j ∈ s.live
        · simp only [step, if_pos hjp, selfDestructCallback_alive s j hjl, destroy]
          exact (List.mem_erase_of_ne (Ne.symm hji)).mpr hl
        · simpa [step, hjp, selfDestructCallback_dead s j hjl] using hl
      · simpa [step, hjp] using hl
  | clickCheck w => exact hl
  | clickCrash p => exact hl

lemma count_eq_one (evs : List Event) (s : State) (i : InstanceId) (hWF : WF s)
    (hp : i ∈ s.pending) (hin : Event.fire i ∈ evs) :
    destroyCount s evs i = 1 ∧ logCount s evs i = 1 := by
  induction evs generalizing s with
  | nil => simp at hin
  | cons e es ih =>
      have hWF' := WF_step s e hWF
      by_cases he : e = Event.fire i
      · subst he
        have hl : i ∈ s.live := hWF.2.2.1 i hp
        have hd : destroysAt s (Event.fire i) i = true := by
          simp [destroysAt, hp, isAlive, hl]
        have hg : logsAt s (Event.fire i) i = true := by
          simp [logsAt, hp]
        have hafter := after_fire_unscheduled s i hWF hp
        have tail := count_zero es _ i hWF' hafter.1 hafter.2
        exact ⟨by simp [destroyCount, hd, tail.1], by simp [logCount, hg, tail.2]⟩
      · have hin' : Event.fire i ∈ es := by
          rcases List.mem_cons.mp hin with h | h
          · exact absurd h.symm he
          · exact h
        have hdz : destroysAt s e i = false := by
          cases e with
          | fire j =>
              have hji : j ≠ i := fun h => he (by rw [h])
              simp [destroysAt, hji]
          | construct => rfl
          | clickCheck w => rfl
          | clickCrash p => rfl
        have hlz : logsAt s e i = false := by
          cases e with
          | fire j =>
              have hji : j ≠ i := fun h => he (by rw [h])
              simp [logsAt, hji]
          | construct => rfl
          | clickCheck w => rfl
          | clickCrash p => rfl
        have tail := ih _ hWF' (pending_step_of_ne s e i he hp) hin'
        exact ⟨by simp [destroyCount, hdz, tail.1],
               by simp [logCount, hlz, tail.2]⟩

instance decidableWF (s : State) : Decidable (WF s) := by
  unfold WF
  exact inferInstance

/-- C1: once an instance has completed destruction (its liveness cell is
invalidated), every weak handle referencing that cell reports
alive = false after every further sequence of events: no operation can
resurrect it. -/
theorem C1_no_resurrection (s : State) (i : InstanceId) (evs : List Event)
    (hWF : WF s) (hc : i ∈ s.created)
    (hd : isAlive s (WeakRef.toCell i) = false) :
    ∀ w : WeakRef, cellOf w = some i → isAlive (run s evs) w = false := by
  intro w hw
  cases w with
  | null => rfl
  | toCell j =>
      have hj : j = i := by simpa [cellOf] using hw
      subst hj
      have hd' : j ∉ s.live := by simpa [isAlive] using hd
      simpa [isAlive] using dead_run s evs j hWF hc hd'

/-- Witness for C1 at the state reached after one construction and one
callback firing. -/
theorem C1_no_resurrection_witness :
    isAlive (run ⟨1, [0], [], [], []⟩ [Event.construct, Event.clickCheck WeakRef.null])
      (WeakRef.toCell 0) = false :=
  C1_no_resurrection ⟨1, [0], [], [], []⟩ 0 _ (by decide) (by decide) (by decide)
    (WeakRef.toCell 0) (by decide)

/-- C2: `resolve` yields a usable accessor (the pointer to a live
instance) exactly when the handle is alive, and is the explicit absent
value otherwise; it is a total function, so no fault is ever raised. -/
theorem C2_resolve_iff_alive (s : State) (w : WeakRef) :
    (isAlive s w = true →
       ∃ i, w = WeakRef.toCell i ∧ resolve s w = some i ∧ i ∈ s.live) ∧
    (isAlive s w = false → resolve s w = none) ∧
    (resolve s w).isSome = isAlive s w := by
  cases w with
  | null => exact ⟨fun h => by simp [isAlive] at h, fun _ => rfl, rfl⟩
  | toCell i =>
      by_cases h : i ∈ s.live
      · refine ⟨fun _ => ⟨i, rfl, by simp [resolve, h], h⟩, fun hf => ?_, ?_⟩
        · simp [isAlive, h] at hf
        · simp [resolve, isAlive, h]
      · refine ⟨fun ht => ?_, fun _ => by simp [resolve, h], ?_⟩
        · simp [isAlive, h] at ht
        · simp [resolve, isAlive, h]

/-- Witness for C2 on a destroyed instance: resolve returns the absent
value. -/
theorem C2_resolve_iff_alive_witness :
    resolve ⟨1, [0], [], [], []⟩ (WeakRef.toCell 0) = none :=
  (C2_resolve_iff_alive ⟨1, [0], [], [], []⟩ (WeakRef.toCell 0)).2.1 (by decide)

/-- C3: along any trace from a well-formed state an instance is
destroyed (its cell invalidated) at most once, exactly once as soon as
its scheduled callback fires, and no event other than its own scheduled
callback removes it from the live set. -/
theorem C3_destroyed_exactly_once (s : State) (i : InstanceId)
    (evs : List Event) (hWF : WF s) :
    destroyCount s evs i ≤ 1 ∧
    (i ∈ s.pending → Event.fire i ∈ evs → destroyCount s evs i = 1) ∧
    (∀ e, e ≠ Event.fire i → i ∈ s.live → i ∈ (step s e).live) :=
  ⟨(count_le_one evs s i hWF).1,
   fun hp hin => (count_eq_one evs s i hWF hp hin).1,
   fun e hne hl => live_step_of_ne s e i hne hl⟩

/-- Witness for C3: the freshly constructed instance is destroyed
exactly once when its callback fires. -/
theorem C3_destroyed_exactly_once_witness :
    destroyCount ⟨1, [0], [0], [0], []⟩ [Event.fire 0] 0 = 1 :=
  (C3_destroyed_exactly_once ⟨1, [0], [0], [0], []⟩ 0 [Event.fire 0]
    (by decide)).2.1 (by decide) (by decide)

/-- C4 counterexample: the configured maximum delay 3000 itself is never
produced, because `Random::nextInt (3000)` has an exclusive upper
bound — refuting that every value of the closed interval [0, 3000] is a
possible delay. -/
theorem C4_delay_counterexample :
    ¬ ∃ seed, scheduledDelay seed = maxDestructionDelay := by
  rintro ⟨seed, h⟩
  have hlt : scheduledDelay seed < 3000 := Nat.mod_lt _ (by decide)
  rw [h] at hlt
  exact absurd hlt (by decide)

/-- C4 (amended): construction schedules exactly one one-shot delayed
action, and its delay lies in the half-open interval [0, 3000): every
value 0..2999 is a possible delay and 3000 itself is not. -/
theorem C4_delay_interval :
    (∀ seed, scheduledDelay seed < maxDestructionDelay) ∧
    (∀ d, d < maxDestructionDelay → ∃ seed, scheduledDelay seed = d) ∧
    (∀ s, ((constructObj s).1).pending = (constructObj s).2 :: s.pending) := by
  refine ⟨fun seed => Nat.mod_lt _ (by decide), fun d hd => ⟨d, ?_⟩, fun s => rfl⟩
  exact Nat.mod_eq_of_lt hd

/-- Witness for C4 (amended): 2999 is a possible delay. -/
theorem C4_delay_interval_witness : ∃ seed, scheduledDelay seed = 2999 :=
  C4_delay_interval.2.1 2999 (by decide)

/-- C5: immediately after the `MainComponent` constructor runs, the
captured weak handle is alive, resolves to the new instance, and the
check button prints the label that was just set. -/
theorem C5_alive_after_construction (s : State) :
    isAlive (mainComponentInit s).state (mainComponentInit s).weak = true ∧
    resolve (mainComponentInit s).state (mainComponentInit s).weak =
      some (constructObj s).2 ∧
    checkClick (mainComponentInit s).state (mainComponentInit s).weak =
      ClickResult.nameBranch "Self Destructing Object" := by
  refine ⟨?_, ?_, ?_⟩ <;>
    simp [mainComponentInit, constructObj, setName, bindWeak, isAlive, resolve,
      checkClick, getName]

/-- C6: a weak handle bound to a null pointer is never alive and always
resolves to the absent value, at every observation point. -/
theorem C6_null_bind_never_alive (s : State) (evs : List Event) :
    isAlive (run s evs) (bindWeak none) = false ∧
    resolve (run s evs) (bindWeak none) = none :=
  ⟨rfl, rfl⟩

/-- C7: a copy of a weak handle references the same liveness cell as the
original, and the two agree on isAlive at every observation point. -/
theorem C7_copy_preserves_liveness (w : WeakRef) (s : State) :
    cellOf (copyWeak w) = cellOf w ∧
    ∀ evs : List Event,
      isAlive (run s evs) (copyWeak w) = isAlive (run s evs) w := by
  cases w with
  | null => exact ⟨rfl, fun _ => rfl⟩
  | toCell i => exact ⟨rfl, fun _ => rfl⟩

/-- C8: the raw pointer captured by `crashButton.onClick` is non-null
and stays non-null in every state, so the `"Object has been deleted"`
branch of the raw-pointer path is unreachable — the null check detects
nothing, in particular not the self-destruction of the instance. -/
theorem C8_crash_branch_unreachable (s0 : State) :
    (mainComponentInit s0).rawPtr.isSome = true ∧
    (∀ s : State,
       crashClick s (mainComponentInit s0).rawPtr ≠ ClickResult.deletedBranch) ∧
    (∀ s : State, ∃ t,
       crashClick s (mainComponentInit s0).rawPtr = ClickResult.nameBranch t) := by
  refine ⟨rfl, fun s => ?_, fun s => ⟨getName s (constructObj s0).2, rfl⟩⟩
  simp [mainComponentInit, crashClick]

/-- C9: the scheduled callback deletes only when the weak self reference
still resolves to a live instance; on an already-destroyed instance it
deletes nothing and leaves the state unchanged, and any delete it does
perform targets a live instance — no double free, no free through a
dangling pointer. -/
theorem C9_guarded_delete (s : State) (i : InstanceId) :
    (selfDestructCallback s i).didDelete = isAlive s (bindWeak (some i)) ∧
    (isAlive s (bindWeak (some i)) = false →
       (selfDestructCallback s i).didDelete = false ∧
       (selfDestructCallback s i).state = s) ∧
    ((selfDestructCallback s i).didDelete = true → i ∈ s.live) := by
  by_cases h : i ∈ s.live
  · rw [selfDestructCallback_alive s i h]
    refine ⟨by simp [isAlive, bindWeak, h], fun hf => ?_, fun _ => h⟩
    simp [isAlive, bindWeak, h] at hf
  · rw [selfDestructCallback_dead s i h]
    exact ⟨by simp [isAlive, bindWeak, h], fun _ => ⟨rfl, rfl⟩,
           fun ht => by simp at ht⟩

/-- Witness for C9 on an already-destroyed instance: no delete, state
unchanged. -/
theorem C9_guarded_delete_witness :
    (selfDestructCallback ⟨1, [0], [], [], []⟩ 0).didDelete = false ∧
    (selfDestructCallback ⟨1, [0], [], [], []⟩ 0).state = ⟨1, [0], [], [], []⟩ :=
  (C9_guarded_delete ⟨1, [0], [], [], []⟩ 0).2.1 (by decide)

/-- C10: the `Deleted object` diagnostic is reached on every run of the
callback, also when nothing was deleted (so observing it does not imply
a deletion), and along any trace from a well-formed state it is emitted
at most once per instance, exactly once when the scheduled callback
fires. -/
theorem C10_log_unconditional (s : State) (i : InstanceId) (evs : List Event)
    (hWF : WF s) :
    (selfDestructCallback s i).loggedDeleted = true ∧
    (isAlive s (bindWeak (some i)) = false →
       (selfDestructCallback s i).loggedDeleted = true ∧
       (selfDestructCallback s i).didDelete = false) ∧
    logCount s evs i ≤ 1 ∧
    (i ∈ s.pending → Event.fire i ∈ evs → logCount s evs i = 1) := by
  refine ⟨?_, fun hf => ?_, (count_le_one evs s i hWF).2,
          fun hp hin => (count_eq_one evs s i hWF hp hin).2⟩
  · by_cases h : i ∈ s.live
    · rw [selfDestructCallback_alive s i h]
    · rw [selfDestructCallback_dead s i h]
  · have h : i ∉ s.live := by simpa [isAlive, bindWeak] using hf
    rw [selfDestructCallback_dead s i h]
    exact ⟨rfl, rfl⟩

/-- Witness for C10: one construction, one firing, one diagnostic. -/
theorem C10_log_unconditional_witness :
    logCount ⟨1, [0], [0], [0], []⟩ [Event.fire 0] 0 = 1 :=
  (C10_log_unconditional ⟨1, [0], [0], [0], []⟩ 0 [Event.fire 0]
    (by decide)).2.2.2 (by decide) (by decide)


end WeakDemo
